import Mathlib

/-!
# Verification of the pantone-tcx color matcher

Shallow embedding of the library (src/src/pantone-tcx.js and its utility
module: hexRgb, rgbToXyz, xyzToLab, rgbToLab, deltaE, colorDistance), with
theorems settling the specification claims.

Embedding conventions:

* JavaScript numbers are modelled as real numbers (`ℝ`).  The only place the
  source can produce `NaN` is `parseInt` on a non-numeric slice; `NaN` is
  modelled as `Option.none`, and every arithmetic step that could receive a
  `NaN` is lifted to `Option`.  A `NaN` RGB channel makes all of X, Y, Z
  `NaN` (each matrix row uses all three channels) and hence the whole Lab
  triple and the Delta-E `NaN`; the embedding therefore propagates `none`
  from any channel to the entire Lab value.  Comparisons involving `NaN`
  are false in JavaScript; the embedding's scan step and filter predicates
  reproduce exactly that.
* The scan state `(closestColor = null, closestDistance = Infinity)` is
  modelled as `Option (PantoneColor × ℝ) := none`: a real (non-`NaN`)
  distance always satisfies `d < Infinity`, and no finite computed distance
  can be `Infinity`, so the `none`/`some` state is a faithful rendering.
* The catalog `pantoneColors` is a module-level constant whose data file is
  not part of the numerical core; all operations are parameterized by the
  catalog list, exactly as the functions consume it (an ordered, immutable
  sequence scanned front to back).
* `Array.prototype.sort` with the comparator `(a, b) => a.distance -
  b.distance` is, per the ECMAScript specification, a stable sort
  consistent with the comparator, which (the comparator being a total
  preorder on the filtered, `NaN`-free list) determines the output
  uniquely; it is modelled by Mathlib's stable `List.insertionSort`.
* `getNearestPantoneName` and `getNearestPantoneTcx` repeat the identical
  scan loop of `getNearestPantone` verbatim in the source (lines 31-40,
  66-75 and 101-110 coincide); the embedding renders the one loop as
  `nearestLoop` used by all three entry points.
-/

/-- JavaScript whitespace recognised by `parseInt` before the number:
WhiteSpace and LineTerminator code points. -/
def isJsWhitespace (c : Char) : Bool :=
  c == ' ' || c == '\t' || c == '\n' || c == '\r' || c == '\x0b' ||
  c == '\x0c' || c == '\u00A0' || c == '\u2028' || c == '\u2029' || c == '\uFEFF'

/-- Value of a hexadecimal digit (`0-9`, `a-f`, `A-F`), `none` otherwise. -/
def hexVal (c : Char) : Option Nat :=
  if 48 ≤ c.toNat ∧ c.toNat ≤ 57 then some (c.toNat - 48)
  else if 97 ≤ c.toNat ∧ c.toNat ≤ 102 then some (c.toNat - 87)
  else if 65 ≤ c.toNat ∧ c.toNat ≤ 70 then some (c.toNat - 55)
  else none

/-- Value of a decimal digit, `none` otherwise. -/
def decVal (c : Char) : Option Nat :=
  if 48 ≤ c.toNat ∧ c.toNat ≤ 57 then some (c.toNat - 48) else none

/-- Longest prefix of digits under the digit-value function `dv`. -/
def digitsPrefix (dv : Char → Option Nat) : List Char → List Nat
  | [] => []
  | c :: rest =>
    match dv c with
    | some d => d :: digitsPrefix dv rest
    | none => []

/-- Value of a digit string in the given base (most significant first). -/
def digitsToNat (base : Nat) (ds : List Nat) : Nat :=
  ds.foldl (fun acc d => base * acc + d) 0

/-- Optional sign character at the front of a `parseInt` input. -/
def parseSign (s : List Char) : Int × List Char :=
  match s with
  | [] => (1, [])
  | c :: rest =>
    if c = '-' then (-1, rest)
    else if c = '+' then (1, rest)
    else (1, c :: rest)

/-- Strip a leading `0x` / `0X` prefix. -/
def strip0x (s : List Char) : List Char :=
  match s with
  | c1 :: c2 :: rest => if c1 = '0' ∧ (c2 = 'x' ∨ c2 = 'X') then rest else s
  | _ => s

/-- Whether the input starts with a `0x` / `0X` prefix. -/
def starts0x (s : List Char) : Bool :=
  match s with
  | c1 :: c2 :: _ => decide (c1 = '0' ∧ (c2 = 'x' ∨ c2 = 'X'))
  | _ => false

/-- `parseInt(s, 16)` of ECMAScript: skip whitespace, optional sign,
optional `0x` prefix, then the longest prefix of hex digits; `none` (`NaN`)
when that prefix is empty. -/
def jsParseIntHex (s : List Char) : Option Int :=
  let s1 := s.dropWhile isJsWhitespace
  let sign := (parseSign s1).1
  let s2 := (parseSign s1).2
  let s3 := strip0x s2
  match digitsPrefix hexVal s3 with
  | [] => none
  | ds => some (sign * (digitsToNat 16 ds : Int))

/-- `parseInt(s)` with no radix argument: radix 10 unless the digits start
with `0x`/`0X`, in which case radix 16. -/
def jsParseIntAuto (s : List Char) : Option Int :=
  let s1 := s.dropWhile isJsWhitespace
  let sign := (parseSign s1).1
  let s2 := (parseSign s1).2
  if starts0x s2 then
    match digitsPrefix hexVal (strip0x s2) with
    | [] => none
    | ds => some (sign * (digitsToNat 16 ds : Int))
  else
    match digitsPrefix decVal s2 with
    | [] => none
    | ds => some (sign * (digitsToNat 10 ds : Int))

/-- Truncation toward zero, the effect of `parseInt` on the decimal
rendering of a finite JavaScript number in plain (non-exponent) notation. -/
def ratTrunc (q : ℚ) : Int :=
  if 0 ≤ q then ⌊q⌋ else -⌊-q⌋

/-- The `maxDistance` argument of `getSimilarColors`: the source accepts a
number or a string.  `num` carries a finite number whose decimal rendering
is in plain notation (the claims only use such thresholds). -/
inductive JsArg where
  | num (q : ℚ)
  | str (s : String)

/-- `parseInt(maxDistance)` as applied to the `maxDistance` argument. -/
def jsParseIntArg : JsArg → Option Int
  | .num q => some (ratTrunc q)
  | .str s => jsParseIntAuto s.toList

/-- Errors thrown by the library. -/
inductive JsError where
  | invalidHex -- "Invalid hex format"
  | noClosest -- "No closest Pantone color found."
deriving DecidableEq

/-- An RGB triple as produced by `hexRgb`; a channel is `none` when its
slice `parseInt`s to `NaN`. -/
structure RGB where
  r : Option Int
  g : Option Int
  b : Option Int
deriving DecidableEq

/-- `hex.replace(/^#/, "")`: drop one leading `#`. -/
def stripHash (s : List Char) : List Char :=
  match s with
  | [] => []
  | c :: rest => if c = '#' then rest else c :: rest

/-- The cleaned (and, for 3-character inputs, shorthand-expanded) form of a
hex string, as computed by `hexRgb` before its length check. -/
def normalizedHex (hex : String) : List Char :=
  let cleanedHex := stripHash hex.toList
  if cleanedHex.length = 3 then cleanedHex.flatMap (fun c => [c, c]) else cleanedHex

/-- `hexRgb`: strip `#`, expand 3-character shorthand by doubling each
character, reject when the result is not 6 characters long, then parse the
three 2-character slices with `parseInt(·, 16)`. -/
def hexRgb (hex : String) : Except JsError RGB :=
  let expandedHex := normalizedHex hex
  if expandedHex.length ≠ 6 then .error .invalidHex
  else .ok ⟨jsParseIntHex (expandedHex.take 2),
            jsParseIntHex ((expandedHex.drop 2).take 2),
            jsParseIntHex ((expandedHex.drop 4).take 2)⟩

/-- A CIE XYZ triple. -/
structure XYZ where
  x : ℝ
  y : ℝ
  z : ℝ

/-- A CIE Lab triple. -/
structure Lab where
  l : ℝ
  a : ℝ
  b : ℝ

/-- sRGB gamma expansion (inverse companding) of `rgbToXyz`. -/
noncomputable def gammaCorrect (value : ℝ) : ℝ :=
  if value > 0.04045 then ((value + 0.055) / 1.055) ^ (2.4 : ℝ) else value / 12.92

/-- `rgbToXyz` on real channel values: normalize by 255, gamma-expand,
apply the sRGB→XYZ matrix, scale by 100. -/
noncomputable def rgbToXyz (r g b : ℝ) : XYZ :=
  let rNorm := gammaCorrect (r / 255)
  let gNorm := gammaCorrect (g / 255)
  let bNorm := gammaCorrect (b / 255)
  let x := rNorm * 0.4124564 + gNorm * 0.3575761 + bNorm * 0.1804375
  let y := rNorm * 0.2126729 + gNorm * 0.7151522 + bNorm * 0.072175
  let z := rNorm * 0.0193339 + gNorm * 0.119192 + bNorm * 0.9503041
  ⟨x * 100, y * 100, z * 100⟩

/-- The per-component Lab nonlinearity of `xyzToLab`. -/
noncomputable def labTransform (value : ℝ) : ℝ :=
  if value > 0.008856 then value ^ ((1 : ℝ) / 3) else (value * 903.3 + 16) / 116

/-- `xyzToLab`: normalize against the D65 white point, apply the Lab
nonlinearity, combine into L, a, b. -/
noncomputable def xyzToLab (xyz : XYZ) : Lab :=
  let xNorm := labTransform (xyz.x / 95.047)
  let yNorm := labTransform (xyz.y / 100.0)
  let zNorm := labTransform (xyz.z / 108.883)
  ⟨116 * yNorm - 16, 500 * (xNorm - yNorm), 200 * (yNorm - zNorm)⟩

/-- `rgbToLab = xyzToLab ∘ rgbToXyz`, lifted over `NaN` channels: a `NaN`
channel contaminates every matrix row and hence the whole Lab triple. -/
noncomputable def rgbToLab (rgb : RGB) : Option Lab :=
  match rgb.r, rgb.g, rgb.b with
  | some r, some g, some b => some (xyzToLab (rgbToXyz (r : ℝ) (g : ℝ) (b : ℝ)))
  | _, _, _ => none

/-- CIE76 Delta-E between two Lab triples. -/
noncomputable def deltaE (lab1 lab2 : Lab) : ℝ :=
  let lDiff := lab1.l - lab2.l
  let aDiff := lab1.a - lab2.a
  let bDiff := lab1.b - lab2.b
  Real.sqrt (lDiff * lDiff + aDiff * aDiff + bDiff * bDiff)

/-- `deltaE`, lifted over `NaN` Lab values. -/
noncomputable def deltaEOpt : Option Lab → Option Lab → Option ℝ
  | some lab1, some lab2 => some (deltaE lab1 lab2)
  | _, _ => none

/-- Euclidean distance in raw RGB space between two all-real triples. -/
noncomputable def colorDistance (r1 g1 b1 r2 g2 b2 : ℝ) : ℝ :=
  let rDiff := r1 - r2
  let gDiff := g1 - g2
  let bDiff := b1 - b2
  Real.sqrt (rDiff * rDiff + gDiff * gDiff + bDiff * bDiff)

/-- `colorDistance`, lifted over `NaN` channels. -/
noncomputable def colorDistanceOpt (c1 c2 : RGB) : Option ℝ :=
  match c1.r, c1.g, c1.b, c2.r, c2.g, c2.b with
  | some r1, some g1, some b1, some r2, some g2, some b2 =>
      some (colorDistance (r1 : ℝ) (g1 : ℝ) (b1 : ℝ) (r2 : ℝ) (g2 : ℝ) (b2 : ℝ))
  | _, _, _, _, _, _ => none

/-- A catalog entry. -/
structure PantoneColor where
  name : String
  tcx : String
  hex : String
deriving DecidableEq

open Classical in
/-- One iteration of the nearest-match loop.  The state is
`none` for `(null, Infinity)`.  A `NaN` distance never updates the state
(`NaN < x` is false); a real distance always beats `Infinity`. -/
noncomputable def scanStep (state : Option (PantoneColor × ℝ)) (pantone : PantoneColor)
    (distance : Option ℝ) : Option (PantoneColor × ℝ) :=
  match distance with
  | none => state
  | some d =>
    match state with
    | none => some (pantone, d)
    | some (closestColor, closestDistance) =>
      if d < closestDistance then some (pantone, d) else some (closestColor, closestDistance)

/-- The `for (const pantone of pantoneColors)` loop shared verbatim by the
three nearest-match entry points: convert each entry's hex, take Delta-E to
the input, keep a strictly smaller distance.  `hexRgb` throwing inside the
loop propagates. -/
noncomputable def nearestLoop (inputLab : Option Lab) :
    Option (PantoneColor × ℝ) → List PantoneColor → Except JsError (Option (PantoneColor × ℝ))
  | state, [] => .ok state
  | state, pantone :: rest =>
    match hexRgb pantone.hex with
    | .error e => .error e
    | .ok pantoneRGB =>
      nearestLoop inputLab (scanStep state pantone (deltaEOpt inputLab (rgbToLab pantoneRGB))) rest

/-- `getNearestPantone`: scan the whole catalog, throw `noClosest` when no
entry was ever retained. -/
noncomputable def getNearestPantone (catalog : List PantoneColor) (inputHex : String) :
    Except JsError PantoneColor :=
  match hexRgb inputHex with
  | .error e => .error e
  | .ok inputRGB =>
    match nearestLoop (rgbToLab inputRGB) none catalog with
    | .error e => .error e
    | .ok none => .error .noClosest
    | .ok (some (closestColor, _)) => .ok closestColor

/-- `getNearestPantoneName`: the same scan, projecting the name. -/
noncomputable def getNearestPantoneName (catalog : List PantoneColor) (inputHex : String) :
    Except JsError String :=
  match hexRgb inputHex with
  | .error e => .error e
  | .ok inputRGB =>
    match nearestLoop (rgbToLab inputRGB) none catalog with
    | .error e => .error e
    | .ok none => .error .noClosest
    | .ok (some (closestColor, _)) => .ok closestColor.name

/-- `getNearestPantoneTcx`: the same scan, projecting the TCX code. -/
noncomputable def getNearestPantoneTcx (catalog : List PantoneColor) (inputHex : String) :
    Except JsError String :=
  match hexRgb inputHex with
  | .error e => .error e
  | .ok inputRGB =>
    match nearestLoop (rgbToLab inputRGB) none catalog with
    | .error e => .error e
    | .ok none => .error .noClosest
    | .ok (some (closestColor, _)) => .ok closestColor.tcx

/-- `color.distance <= parseInt(maxDistance)` of the similar-colors filter;
false whenever either side is `NaN`. -/
def jsLeOpt (d : Option ℝ) (t : Option Int) : Prop :=
  match d, t with
  | some x, some n => x ≤ (n : ℝ)
  | _, _ => False

/-- The `.map` stage of `getSimilarColors`: pair every catalog entry with
its raw RGB distance to the anchor, throwing if an entry's hex is
malformed. -/
noncomputable def distanceList (targetRGB : RGB) :
    List PantoneColor → Except JsError (List (PantoneColor × Option ℝ))
  | [] => .ok []
  | color :: rest =>
    match hexRgb color.hex with
    | .error e => .error e
    | .ok rgb =>
      match distanceList targetRGB rest with
      | .error e => .error e
      | .ok tail => .ok ((color, colorDistanceOpt targetRGB rgb) :: tail)

open Classical in
/-- `getSimilarColors`: anchor on the nearest match, pair each entry with
its raw RGB distance to the anchor, keep entries within the integer-parsed
threshold whose hex differs from the anchor's, stable-sort ascending by
distance, drop the distance field, and prepend the anchor. -/
noncomputable def getSimilarColors (catalog : List PantoneColor) (inputHex : String)
    (maxDistance : JsArg) : Except JsError (List PantoneColor) :=
  match getNearestPantone catalog inputHex with
  | .error e => .error e
  | .ok nearest =>
    match hexRgb nearest.hex with
    | .error e => .error e
    | .ok targetRGB =>
      match distanceList targetRGB catalog with
      | .error e => .error e
      | .ok withDistance =>
        let t := jsParseIntArg maxDistance
        let filtered := withDistance.filter fun cd =>
          decide (jsLeOpt cd.2 t) && (cd.1.hex != nearest.hex)
        let sorted := filtered.insertionSort fun a b => a.2.getD 0 ≤ b.2.getD 0
        .ok (nearest :: sorted.map (fun cd => cd.1))

/-! ## Specification-side definitions used in theorem statements -/

/-- A hex string is valid when its normalized form is exactly 6 hex
digits. -/
def validHexB (s : String) : Bool :=
  (normalizedHex s).length == 6 && (normalizedHex s).all fun c => (hexVal c).isSome

/-- The Lab value of a hex string; `none` on malformed or `NaN`-channel
input. -/
noncomputable def labOfHex (s : String) : Option Lab :=
  match hexRgb s with
  | .error _ => none
  | .ok rgb => rgbToLab rgb

/-- Perceptual (Delta-E) distance between an input hex string and a catalog
entry, defaulting the Lab values of unparseable strings to the origin; the
theorems only apply it to valid strings. -/
noncomputable def dE (input : String) (e : PantoneColor) : ℝ :=
  deltaE ((labOfHex input).getD ⟨0, 0, 0⟩) ((labOfHex e.hex).getD ⟨0, 0, 0⟩)

/-- Raw RGB distance between two hex strings, with the same defaulting
convention as `dE`. -/
noncomputable def rawDist (s1 s2 : String) : ℝ :=
  (match hexRgb s1, hexRgb s2 with
   | .ok c1, .ok c2 => colorDistanceOpt c1 c2
   | _, _ => none).getD 0

/-! ## Character and parsing lemmas -/

theorem hexVal_le15 {c : Char} {v : Nat} (h : hexVal c = some v) : v ≤ 15 := by
  unfold hexVal at h
  split_ifs at h with h1 h2 h3 <;> · injection h with h; omega

theorem hexVal_ne_of_none {c d : Char} {v : Nat} (h : hexVal c = some v)
    (hd : hexVal d = none) : c ≠ d := by
  rintro rfl
  rw [h] at hd
  exact Option.noConfusion hd

theorem ws_hexVal_none {c : Char} (h : isJsWhitespace c = true) : hexVal c = none := by
  simp only [isJsWhitespace, Bool.or_eq_true, beq_iff_eq] at h
  rcases h with ((((((((h | h) | h) | h) | h) | h) | h) | h) | h) | h <;> subst h <;> decide

theorem hexVal_not_ws {c : Char} {v : Nat} (h : hexVal c = some v) :
    isJsWhitespace c = false := by
  cases hw : isJsWhitespace c with
  | false => rfl
  | true => rw [ws_hexVal_none hw] at h; exact Option.noConfusion h

theorem digitsPrefix_pair {a b : Char} {va vb : Nat} (ha : hexVal a = some va)
    (hb : hexVal b = some vb) : digitsPrefix hexVal [a, b] = [va, vb] := by
  simp [digitsPrefix, ha, hb]

theorem jsParseIntHex_pair {a b : Char} {va vb : Nat} (ha : hexVal a = some va)
    (hb : hexVal b = some vb) :
    jsParseIntHex [a, b] = some ((16 * va + vb : ℕ) : ℤ) := by
  have hwa : isJsWhitespace a = false := hexVal_not_ws ha
  have hminus : a ≠ '-' := hexVal_ne_of_none ha (by decide)
  have hplus : a ≠ '+' := hexVal_ne_of_none ha (by decide)
  have hx : b ≠ 'x' := hexVal_ne_of_none hb (by decide)
  have hX : b ≠ 'X' := hexVal_ne_of_none hb (by decide)
  unfold jsParseIntHex
  rw [List.dropWhile_cons]
  simp only [hwa, Bool.false_eq_true, if_false, parseSign, hminus, hplus, if_false, strip0x,
    hx, hX, or_self, and_false, if_false, digitsPrefix_pair ha hb]
  simp [digitsToNat]

theorem length_six_destruct {l : List Char} (h : l.length = 6) :
    ∃ c1 c2 c3 c4 c5 c6, l = [c1, c2, c3, c4, c5, c6] := by
  rcases l with _ | ⟨c1, l⟩; · simp at h
  rcases l with _ | ⟨c2, l⟩; · simp at h
  rcases l with _ | ⟨c3, l⟩; · simp at h
  rcases l with _ | ⟨c4, l⟩; · simp at h
  rcases l with _ | ⟨c5, l⟩; · simp at h
  rcases l with _ | ⟨c6, l⟩; · simp at h
  rcases l with _ | ⟨c7, l⟩
  · exact ⟨c1, c2, c3, c4, c5, c6, rfl⟩
  · simp [List.length_cons] at h

theorem validHexB_elim {s : String} (h : validHexB s = true) :
    ∃ r g b : ℕ, hexRgb s = .ok ⟨some (r : ℤ), some (g : ℤ), some (b : ℤ)⟩ ∧
      r ≤ 255 ∧ g ≤ 255 ∧ b ≤ 255 := by
  unfold validHexB at h
  rw [Bool.and_eq_true, beq_iff_eq] at h
  obtain ⟨hlen, hall⟩ := h
  obtain ⟨c1, c2, c3, c4, c5, c6, hl⟩ := length_six_destruct hlen
  rw [List.all_eq_true, hl] at hall
  have h1 := Option.isSome_iff_exists.mp (hall c1 (by simp))
  have h2 := Option.isSome_iff_exists.mp (hall c2 (by simp))
  have h3 := Option.isSome_iff_exists.mp (hall c3 (by simp))
  have h4 := Option.isSome_iff_exists.mp (hall c4 (by simp))
  have h5 := Option.isSome_iff_exists.mp (hall c5 (by simp))
  have h6 := Option.isSome_iff_exists.mp (hall c6 (by simp))
  obtain ⟨v1, hv1⟩ := h1
  obtain ⟨v2, hv2⟩ := h2
  obtain ⟨v3, hv3⟩ := h3
  obtain ⟨v4, hv4⟩ := h4
  obtain ⟨v5, hv5⟩ := h5
  obtain ⟨v6, hv6⟩ := h6
  refine ⟨16 * v1 + v2, 16 * v3 + v4, 16 * v5 + v6, ?_, ?_, ?_, ?_⟩
  · unfold hexRgb
    rw [hl]
    have ht : ([c1, c2, c3, c4, c5, c6] : List Char).length ≠ 6 ↔ False := by simp
    simp only [ht, if_false]
    have e1 : ([c1, c2, c3, c4, c5, c6] : List Char).take 2 = [c1, c2] := rfl
    have e2 : (([c1, c2, c3, c4, c5, c6] : List Char).drop 2).take 2 = [c3, c4] := rfl
    have e3 : (([c1, c2, c3, c4, c5, c6] : List Char).drop 4).take 2 = [c5, c6] := rfl
    rw [e1, e2, e3, jsParseIntHex_pair hv1 hv2, jsParseIntHex_pair hv3 hv4,
      jsParseIntHex_pair hv5 hv6]
  · have := hexVal_le15 hv1; have := hexVal_le15 hv2; omega
  · have := hexVal_le15 hv3; have := hexVal_le15 hv4; omega
  · have := hexVal_le15 hv5; have := hexVal_le15 hv6; omega

theorem labOfHex_eq {s : String} {r g b : ℤ} (h : hexRgb s = .ok ⟨some r, some g, some b⟩) :
    labOfHex s = some (xyzToLab (rgbToXyz (r : ℝ) (g : ℝ) (b : ℝ))) := by
  unfold labOfHex
  rw [h]
  rfl

theorem validHexB_labOfHex {s : String} (h : validHexB s = true) :
    ∃ lab, labOfHex s = some lab := by
  obtain ⟨r, g, b, hok, -⟩ := validHexB_elim h
  exact ⟨_, labOfHex_eq hok⟩

theorem hexRgb_ext {s1 s2 : String} (h : stripHash s1.toList = stripHash s2.toList) :
    hexRgb s1 = hexRgb s2 := by
  unfold hexRgb normalizedHex
  rw [h]

theorem getNearestPantone_congr {s1 s2 : String} (h : hexRgb s1 = hexRgb s2)
    (catalog : List PantoneColor) :
    getNearestPantone catalog s1 = getNearestPantone catalog s2 := by
  unfold getNearestPantone
  rw [h]

/-- **C4** (amended).  `hexRgb` raises the malformed-input error exactly when
the input, after stripping an optional leading `#`, has length neither 3
nor 6 — the check is on the character count only, performed before any
color-space work (a 3- or 6-character input containing non-hex characters
is *not* rejected); the error propagates through `getNearestPantone`, so no
value is returned for such inputs. -/
theorem hexRgb_malformed_iff (s : String) (catalog : List PantoneColor) :
    (hexRgb s = .error .invalidHex ↔
      (stripHash s.toList).length ≠ 3 ∧ (stripHash s.toList).length ≠ 6) ∧
    (hexRgb s = .error .invalidHex → getNearestPantone catalog s = .error .invalidHex) := by
  constructor
  · unfold hexRgb normalizedHex
    by_cases h3 : (stripHash s.toList).length = 3
    · rw [if_pos h3]
      obtain ⟨a, b, c, habc⟩ := List.length_eq_three.mp h3
      rw [habc]
      have hx : (([a, b, c] : List Char).flatMap fun ch => [ch, ch]) = [a, a, b, b, c, c] := rfl
      rw [hx]
      simp [h3]
    · rw [if_neg h3]
      by_cases h6 : (stripHash s.toList).length = 6 <;> simp [h3, h6] <;>
        exact fun _ => h3
  · intro he
    unfold getNearestPantone
    rw [he]

/-- **C4 counterexample.**  The claim demands a malformed-input error for
`"red"`, whose expanded form `"rreedd"` is 6 characters but not 6 hex
digits; the code only checks the length, so `hexRgb "red"` returns a value
(with a `NaN` red channel) instead of raising. -/
theorem hexRgb_red_returns_value :
    hexRgb "red" = .ok ⟨none, some 238, some 221⟩ ∧ hexRgb "red" ≠ .error .invalidHex := by
  have h1 : hexRgb "red" = .ok ⟨none, some 238, some 221⟩ := rfl
  refine ⟨h1, fun h2 => ?_⟩
  rw [h1] at h2
  exact Except.noConfusion h2

theorem stripHash_hash (l : List Char) : stripHash ('#' :: l) = l := by
  simp [stripHash]

theorem stripHash_no_hash {c : Char} (h : c ≠ '#') (l : List Char) :
    stripHash (c :: l) = c :: l := by
  simp [stripHash, h]

theorem hexRgb_three {c1 c2 c3 : Char} (h1 : c1 ≠ '#') :
    hexRgb (String.mk [c1, c2, c3]) =
      .ok ⟨jsParseIntHex [c1, c1], jsParseIntHex [c2, c2], jsParseIntHex [c3, c3]⟩ := by
  have ht : (String.mk [c1, c2, c3]).toList = [c1, c2, c3] := rfl
  unfold hexRgb normalizedHex
  rw [ht, stripHash_no_hash h1]
  have hlen : ([c1, c2, c3] : List Char).length = 3 := rfl
  rw [if_pos hlen]
  have hx : (([c1, c2, c3] : List Char).flatMap fun c => [c, c]) =
      [c1, c1, c2, c2, c3, c3] := rfl
  rw [hx]
  rfl

theorem hexRgb_six {c1 c2 c3 c4 c5 c6 : Char} (h1 : c1 ≠ '#') :
    hexRgb (String.mk [c1, c2, c3, c4, c5, c6]) =
      .ok ⟨jsParseIntHex [c1, c2], jsParseIntHex [c3, c4], jsParseIntHex [c5, c6]⟩ := by
  have ht : (String.mk [c1, c2, c3, c4, c5, c6]).toList = [c1, c2, c3, c4, c5, c6] := rfl
  unfold hexRgb normalizedHex
  rw [ht, stripHash_no_hash h1]
  have hlen : ¬ ([c1, c2, c3, c4, c5, c6] : List Char).length = 3 := by simp
  rw [if_neg hlen]
  rfl

/-- **C8.**  3-digit shorthand expands by doubling each digit, parsing is
case-insensitive on hex digits and ignores one leading `#`: for any two
digit triples with equal hex values, the 3-digit form, the expanded 6-digit
form, and both `#`-prefixed forms all give the same `getNearestPantone`
result. -/
theorem nearest_shorthand_invariance (catalog : List PantoneColor)
    {c1 c2 c3 d1 d2 d3 : Char} {v1 v2 v3 : ℕ}
    (hc1 : hexVal c1 = some v1) (hd1 : hexVal d1 = some v1)
    (hc2 : hexVal c2 = some v2) (hd2 : hexVal d2 = some v2)
    (hc3 : hexVal c3 = some v3) (hd3 : hexVal d3 = some v3) :
    getNearestPantone catalog (String.mk [c1, c2, c3]) =
        getNearestPantone catalog (String.mk [d1, d1, d2, d2, d3, d3]) ∧
    getNearestPantone catalog (String.mk [c1, c2, c3]) =
        getNearestPantone catalog (String.mk ('#' :: [c1, c2, c3])) ∧
    getNearestPantone catalog (String.mk [c1, c2, c3]) =
        getNearestPantone catalog (String.mk ('#' :: [d1, d1, d2, d2, d3, d3])) := by
  have hc1h : c1 ≠ '#' := hexVal_ne_of_none hc1 (by decide)
  have hd1h : d1 ≠ '#' := hexVal_ne_of_none hd1 (by decide)
  have key : hexRgb (String.mk [c1, c2, c3]) =
      hexRgb (String.mk [d1, d1, d2, d2, d3, d3]) := by
    rw [hexRgb_three hc1h, hexRgb_six hd1h,
      jsParseIntHex_pair hc1 hc1, jsParseIntHex_pair hc2 hc2, jsParseIntHex_pair hc3 hc3,
      jsParseIntHex_pair hd1 hd1, jsParseIntHex_pair hd2 hd2, jsParseIntHex_pair hd3 hd3]
  have keyc : hexRgb (String.mk ('#' :: [c1, c2, c3])) =
      hexRgb (String.mk [c1, c2, c3]) :=
    hexRgb_ext (by
      show stripHash ('#' :: [c1, c2, c3]) = stripHash [c1, c2, c3]
      rw [stripHash_hash, stripHash_no_hash hc1h])
  have keyd : hexRgb (String.mk ('#' :: [d1, d1, d2, d2, d3, d3])) =
      hexRgb (String.mk [d1, d1, d2, d2, d3, d3]) :=
    hexRgb_ext (by
      show stripHash ('#' :: [d1, d1, d2, d2, d3, d3]) = stripHash [d1, d1, d2, d2, d3, d3]
      rw [stripHash_hash, stripHash_no_hash hd1h])
  exact ⟨getNearestPantone_congr key catalog,
    getNearestPantone_congr keyc.symm catalog,
    getNearestPantone_congr (key.trans keyd.symm) catalog⟩

/-- Concrete catalog entries used by the witnesses below. -/
def blackEntry : PantoneColor := ⟨"Jet Black", "19-0303", "#000000"⟩

/-- A second concrete catalog entry. -/
def whiteEntry : PantoneColor := ⟨"Bright White", "11-0601", "#FFFFFF"⟩

/-- **C8 witness** at `"f00"`, `"FF0000"`, `"#f00"`, `"#FF0000"`. -/
theorem nearest_shorthand_invariance_witness :
    getNearestPantone [blackEntry] (String.mk ['f', '0', '0']) =
        getNearestPantone [blackEntry] (String.mk ['F', 'F', '0', '0', '0', '0']) ∧
    getNearestPantone [blackEntry] (String.mk ['f', '0', '0']) =
        getNearestPantone [blackEntry] (String.mk ('#' :: ['f', '0', '0'])) ∧
    getNearestPantone [blackEntry] (String.mk ['f', '0', '0']) =
        getNearestPantone [blackEntry] (String.mk ('#' :: ['F', 'F', '0', '0', '0', '0'])) :=
  nearest_shorthand_invariance [blackEntry]
    (show hexVal 'f' = some 15 by decide) (show hexVal 'F' = some 15 by decide)
    (show hexVal '0' = some 0 by decide) (show hexVal '0' = some 0 by decide)
    (show hexVal '0' = some 0 by decide) (show hexVal '0' = some 0 by decide)

/-- **C5.**  The name-only and code-only lookups are exactly the primary
nearest-match lookup followed by a field projection: they succeed and fail
together with `getNearestPantone`, with the same errors, and project the
`name` / `tcx` field of the same selected entry. -/
theorem nearest_projections (catalog : List PantoneColor) (inputHex : String) :
    getNearestPantoneName catalog inputHex =
        Except.map (fun c => c.name) (getNearestPantone catalog inputHex) ∧
    getNearestPantoneTcx catalog inputHex =
        Except.map (fun c => c.tcx) (getNearestPantone catalog inputHex) := by
  unfold getNearestPantoneName getNearestPantoneTcx getNearestPantone
  cases hh : hexRgb inputHex with
  | error e => simp [Except.map]
  | ok rgb =>
    cases hl : nearestLoop (rgbToLab rgb) none catalog with
    | error e => dsimp only; rw [hl]; exact ⟨rfl, rfl⟩
    | ok st =>
      cases st with
      | none => dsimp only; rw [hl]; exact ⟨rfl, rfl⟩
      | some p =>
        cases p with
        | mk c d => dsimp only; rw [hl]; exact ⟨rfl, rfl⟩

/-! ## Nearest-match scan characterization -/

theorem nearestLoop_valid {inputLab : Option Lab} {catalog : List PantoneColor}
    (hcat : ∀ e ∈ catalog, validHexB e.hex = true) (st : Option (PantoneColor × ℝ)) :
    nearestLoop inputLab st catalog =
      .ok (catalog.foldl (fun s e => scanStep s e (deltaEOpt inputLab (labOfHex e.hex))) st) := by
  induction catalog generalizing st with
  | nil => rfl
  | cons e rest ih =>
    obtain ⟨r, g, b, hok, -⟩ := validHexB_elim (hcat e (by simp))
    have hlab : labOfHex e.hex = rgbToLab ⟨some r, some g, some b⟩ := by
      unfold labOfHex
      rw [hok]
    unfold nearestLoop
    rw [hok, List.foldl_cons, hlab]
    exact ih (fun x hx => hcat x (by simp [hx])) _

theorem foldl_scanStep_some (f : PantoneColor → ℝ) :
    ∀ (l : List PantoneColor) (c0 : PantoneColor) (d0 : ℝ),
      ∃ c d, l.foldl (fun s e => scanStep s e (some (f e))) (some (c0, d0)) = some (c, d) ∧
        d ≤ d0 ∧ (∀ e ∈ l, d ≤ f e) ∧
        (((c, d) = (c0, d0) ∧ ∀ e ∈ l, ¬ f e < d0) ∨
          (∃ i, ∃ hi : i < l.length, c = l.get ⟨i, hi⟩ ∧ d = f c ∧ d < d0 ∧
            ∀ j, ∀ hj : j < l.length, j < i → d < f (l.get ⟨j, hj⟩)))
  | [], c0, d0 => ⟨c0, d0, rfl, le_refl _, by simp, Or.inl ⟨rfl, by simp⟩⟩
  | e :: rest, c0, d0 => by
    rw [List.foldl_cons]
    by_cases hlt : f e < d0
    · have step : scanStep (some (c0, d0)) e (some (f e)) = some (e, f e) := by
        show (if f e < d0 then some (e, f e) else some (c0, d0)) = some (e, f e)
        rw [if_pos hlt]
      rw [step]
      obtain ⟨c, d, hfold, hd, hmin, hcase⟩ := foldl_scanStep_some f rest e (f e)
      refine ⟨c, d, hfold, le_of_lt (lt_of_le_of_lt hd hlt), ?_, ?_⟩
      · intro x hx
        rcases List.mem_cons.mp hx with rfl | hx
        · exact hd
        · exact hmin x hx
      · rcases hcase with ⟨heq, -⟩ | ⟨i, hi, hc, hdf, hdlt, hearlier⟩
        · right
          have hce : c = e := congrArg Prod.fst heq
          have hde : d = f e := congrArg Prod.snd heq
          refine ⟨0, by simp, by simpa using hce, ?_, ?_, ?_⟩
          · rw [hde, hce]
          · rw [hde]; exact hlt
          · intro j hj hj0
            exact absurd hj0 (Nat.not_lt_zero j)
        · right
          refine ⟨i + 1, Nat.succ_lt_succ hi, by simpa using hc, hdf,
            lt_trans hdlt hlt, ?_⟩
          intro j hj hji
          cases j with
          | zero => simpa using hdlt
          | succ k =>
            exact hearlier k (Nat.lt_of_succ_lt_succ hj) (Nat.lt_of_succ_lt_succ hji)
    · have step : scanStep (some (c0, d0)) e (some (f e)) = some (c0, d0) := by
        show (if f e < d0 then some (e, f e) else some (c0, d0)) = some (c0, d0)
        rw [if_neg hlt]
      rw [step]
      obtain ⟨c, d, hfold, hd, hmin, hcase⟩ := foldl_scanStep_some f rest c0 d0
      have hd0e : d0 ≤ f e := not_lt.mp hlt
      refine ⟨c, d, hfold, hd, ?_, ?_⟩
      · intro x hx
        rcases List.mem_cons.mp hx with rfl | hx
        · exact le_trans hd hd0e
        · exact hmin x hx
      · rcases hcase with ⟨heq, hnone⟩ | ⟨i, hi, hc, hdf, hdlt, hearlier⟩
        · left
          refine ⟨heq, ?_⟩
          intro x hx
          rcases List.mem_cons.mp hx with rfl | hx
          · exact hlt
          · exact hnone x hx
        · right
          refine ⟨i + 1, Nat.succ_lt_succ hi, by simpa using hc, hdf, hdlt, ?_⟩
          intro j hj hji
          cases j with
          | zero => simpa using lt_of_lt_of_le hdlt hd0e
          | succ k =>
            exact hearlier k (Nat.lt_of_succ_lt_succ hj) (Nat.lt_of_succ_lt_succ hji)

theorem foldl_scanStep_none (f : PantoneColor → ℝ) (l : List PantoneColor) (hne : l ≠ []) :
    ∃ c d, l.foldl (fun s e => scanStep s e (some (f e))) none = some (c, d) ∧
      d = f c ∧ (∀ e ∈ l, d ≤ f e) ∧
      ∃ i, ∃ hi : i < l.length, c = l.get ⟨i, hi⟩ ∧
        ∀ j, ∀ hj : j < l.length, j < i → d < f (l.get ⟨j, hj⟩) := by
  cases l with
  | nil => exact absurd rfl hne
  | cons e rest =>
    rw [List.foldl_cons]
    have step : scanStep none e (some (f e)) = some (e, f e) := rfl
    rw [step]
    obtain ⟨c, d, hfold, hd, hmin, hcase⟩ := foldl_scanStep_some f rest e (f e)
    have hmem : ∀ x ∈ e :: rest, d ≤ f x := by
      intro x hx
      rcases List.mem_cons.mp hx with rfl | hx
      · exact hd
      · exact hmin x hx
    rcases hcase with ⟨heq, -⟩ | ⟨i, hi, hc, hdf, hdlt, hearlier⟩
    · have hce : c = e := congrArg Prod.fst heq
      have hde : d = f e := congrArg Prod.snd heq
      refine ⟨c, d, hfold, by rw [hde, hce], hmem, 0, by simp, by simpa using hce, ?_⟩
      intro j hj hj0
      exact absurd hj0 (Nat.not_lt_zero j)
    · refine ⟨c, d, hfold, hdf, hmem, i + 1, Nat.succ_lt_succ hi, by simpa using hc, ?_⟩
      intro j hj hji
      cases j with
      | zero => simpa using hdlt
      | succ k =>
        exact hearlier k (Nat.lt_of_succ_lt_succ hj) (Nat.lt_of_succ_lt_succ hji)

theorem deltaE_nonneg (x y : Lab) : 0 ≤ deltaE x y := Real.sqrt_nonneg _

theorem deltaE_self (x : Lab) : deltaE x x = 0 := by
  unfold deltaE
  simp

theorem dE_nonneg (s : String) (e : PantoneColor) : 0 ≤ dE s e := deltaE_nonneg _ _

/-- Shared characterization of `getNearestPantone` on valid input over a
valid, non-empty catalog: it returns the earliest entry of minimal
perceptual distance. -/
theorem getNearestPantone_spec (catalog : List PantoneColor) (input : String)
    (hin : validHexB input = true) (hcat : ∀ e ∈ catalog, validHexB e.hex = true)
    (hne : catalog ≠ []) :
    ∃ closest, getNearestPantone catalog input = .ok closest ∧ closest ∈ catalog ∧
      (∀ e ∈ catalog, dE input closest ≤ dE input e) ∧
      ∃ i, ∃ hi : i < catalog.length, catalog.get ⟨i, hi⟩ = closest ∧
        ∀ j, ∀ hj : j < catalog.length, j < i →
          dE input closest < dE input (catalog.get ⟨j, hj⟩) := by
  obtain ⟨r, g, b, hok, -⟩ := validHexB_elim hin
  have hil : labOfHex input = some (xyzToLab (rgbToXyz (r : ℝ) (g : ℝ) (b : ℝ))) :=
    labOfHex_eq hok
  have hbridge : ∀ e ∈ catalog,
      deltaEOpt (rgbToLab ⟨some (r : ℤ), some (g : ℤ), some (b : ℤ)⟩) (labOfHex e.hex) =
        some (dE input e) := by
    intro e he
    obtain ⟨r2, g2, b2, hok2, -⟩ := validHexB_elim (hcat e he)
    rw [labOfHex_eq hok2]
    unfold dE
    rw [hil, labOfHex_eq hok2]
    rfl
  unfold getNearestPantone
  rw [hok]
  dsimp only
  rw [nearestLoop_valid hcat none]
  have hfold_eq : catalog.foldl
        (fun s e => scanStep s e
          (deltaEOpt (rgbToLab ⟨some (r : ℤ), some (g : ℤ), some (b : ℤ)⟩) (labOfHex e.hex)))
        none =
      catalog.foldl (fun s e => scanStep s e (some (dE input e))) none := by
    apply List.foldl_ext
    intro a x hx
    rw [hbridge x hx]
  rw [hfold_eq]
  obtain ⟨c, d, hfold, hdc, hmin, i, hi, hc, hearlier⟩ :=
    foldl_scanStep_none (dE input) catalog hne
  rw [hfold]
  subst hdc
  refine ⟨c, rfl, ?_, hmin, i, hi, hc.symm, ?_⟩
  · rw [hc]
    exact List.get_mem catalog i hi
  · intro j hj hji
    exact hearlier j hj hji

/-- **C1.**  On valid input over a valid non-empty catalog,
`getNearestPantone` returns an entry of minimal Lab-space Delta-E distance
to the input, and it is the earliest such entry: the selected entry occurs
at an index all of whose predecessors have strictly greater distance (the
scan updates only on strictly smaller distance, so the first minimum
wins all ties). -/
theorem nearest_is_first_argmin (catalog : List PantoneColor) (input : String)
    (hin : validHexB input = true) (hcat : ∀ e ∈ catalog, validHexB e.hex = true)
    (hne : catalog ≠ []) :
    ∃ closest, getNearestPantone catalog input = .ok closest ∧
      (∀ e ∈ catalog, dE input closest ≤ dE input e) ∧
      ∃ i, ∃ hi : i < catalog.length, catalog.get ⟨i, hi⟩ = closest ∧
        ∀ j, ∀ hj : j < catalog.length, j < i →
          dE input closest < dE input (catalog.get ⟨j, hj⟩) := by
  obtain ⟨c, hok, -, hmin, hidx⟩ := getNearestPantone_spec catalog input hin hcat hne
  exact ⟨c, hok, hmin, hidx⟩

/-- **C1 witness** at `"#FF0000"` over a concrete two-entry catalog. -/
theorem nearest_is_first_argmin_witness :
    validHexB "#FF0000" = true ∧
      (∀ e ∈ [blackEntry, whiteEntry], validHexB e.hex = true) ∧
      ([blackEntry, whiteEntry] : List PantoneColor) ≠ [] ∧
      (∃ closest, getNearestPantone [blackEntry, whiteEntry] "#FF0000" = .ok closest ∧
        (∀ e ∈ [blackEntry, whiteEntry], dE "#FF0000" closest ≤ dE "#FF0000" e) ∧
        ∃ i, ∃ hi : i < ([blackEntry, whiteEntry] : List PantoneColor).length,
          ([blackEntry, whiteEntry] : List PantoneColor).get ⟨i, hi⟩ = closest ∧
          ∀ j, ∀ hj : j < ([blackEntry, whiteEntry] : List PantoneColor).length, j < i →
            dE "#FF0000" closest <
              dE "#FF0000" (([blackEntry, whiteEntry] : List PantoneColor).get ⟨j, hj⟩)) :=
  ⟨by decide, by decide, by decide,
    nearest_is_first_argmin [blackEntry, whiteEntry] "#FF0000" (by decide) (by decide)
      (by decide)⟩

/-- **C6.**  Looking up a catalog entry's own hex returns an entry with that
hex: if no other entry of the (valid) catalog is at zero Delta-E from `e`,
then `getNearestPantone e.hex` selects `e` itself. -/
theorem nearest_roundtrip (catalog : List PantoneColor) (e : PantoneColor)
    (he : e ∈ catalog) (hcat : ∀ x ∈ catalog, validHexB x.hex = true)
    (huniq : ∀ x ∈ catalog, x ≠ e → dE e.hex x ≠ 0) :
    getNearestPantone catalog e.hex = .ok e := by
  have hin : validHexB e.hex = true := hcat e he
  obtain ⟨c, hok, hcmem, hmin, -⟩ :=
    getNearestPantone_spec catalog e.hex hin hcat (List.ne_nil_of_mem he)
  have hself : dE e.hex e = 0 := by
    obtain ⟨r, g, b, hokk, -⟩ := validHexB_elim hin
    unfold dE
    rw [labOfHex_eq hokk]
    exact deltaE_self _
  have hzero : dE e.hex c = 0 :=
    le_antisymm (hself ▸ hmin e he) (dE_nonneg _ _)
  have : c = e := by
    by_contra hne
    exact huniq c hcmem hne hzero
  rw [this] at hok
  exact hok

/-- **C6 witness** on a singleton catalog (the uniqueness hypothesis is
vacuous). -/
theorem nearest_roundtrip_witness :
    blackEntry ∈ [blackEntry] ∧ (∀ x ∈ [blackEntry], validHexB x.hex = true) ∧
      (∀ x ∈ [blackEntry], x ≠ blackEntry → dE blackEntry.hex x ≠ 0) ∧
      getNearestPantone [blackEntry] blackEntry.hex = .ok blackEntry :=
  ⟨by decide, by decide,
    (fun x hx hne => absurd (by simpa using hx) hne),
    nearest_roundtrip [blackEntry] blackEntry (by decide) (by decide)
      (fun x hx hne => absurd (by simpa using hx) hne)⟩

theorem nearestLoop_nan {catalog : List PantoneColor}
    (hcat : ∀ e ∈ catalog, validHexB e.hex = true) (st : Option (PantoneColor × ℝ)) :
    nearestLoop none st catalog = .ok st := by
  induction catalog generalizing st with
  | nil => rfl
  | cons e rest ih =>
    obtain ⟨r, g, b, hok, -⟩ := validHexB_elim (hcat e (by simp))
    unfold nearestLoop
    rw [hok]
    exact ih (fun x hx => hcat x (by simp [hx])) _

/-- **C10** (amended).  When a 6-character input is not length-rejected,
`hexRgb` returns a value whose channels are `NaN` exactly where the
2-character slice fails `parseInt` (a slice can succeed despite a non-hex
character, e.g. `"1z"` parses to 1); whenever at least one channel is `NaN`,
every Delta-E comparison is false, so `getNearestPantone` over a
well-formed catalog raises the "No closest Pantone color found" error. -/
theorem nan_channel_noClosest (s : String) (rgb : RGB) (catalog : List PantoneColor)
    (hok : hexRgb s = .ok rgb) (hnan : rgb.r = none ∨ rgb.g = none ∨ rgb.b = none)
    (hcat : ∀ e ∈ catalog, validHexB e.hex = true) :
    getNearestPantone catalog s = .error .noClosest := by
  have hlab : rgbToLab rgb = none := by
    rcases rgb with ⟨r, g, b⟩
    rcases r with _ | r <;> rcases g with _ | g <;> rcases b with _ | b <;>
      first
        | rfl
        | simp at hnan
  unfold getNearestPantone
  rw [hok]
  dsimp only
  rw [hlab, nearestLoop_nan hcat none]

/-- **C10 witness** at `"zzzzzz"`: all three channels are `NaN` and the
lookup raises `noClosest`. -/
theorem nan_channel_noClosest_witness :
    hexRgb "zzzzzz" = .ok ⟨none, none, none⟩ ∧
      ((⟨none, none, none⟩ : RGB).r = none ∨ (⟨none, none, none⟩ : RGB).g = none ∨
        (⟨none, none, none⟩ : RGB).b = none) ∧
      (∀ e ∈ [blackEntry], validHexB e.hex = true) ∧
      getNearestPantone [blackEntry] "zzzzzz" = .error .noClosest :=
  ⟨rfl, Or.inl rfl, by decide,
    nan_channel_noClosest "zzzzzz" ⟨none, none, none⟩ [blackEntry] rfl (Or.inl rfl) (by decide)⟩

/-- **C10 counterexample.**  `"1z1111"` has 6 characters and contains a
non-hex character, yet no channel is `NaN` (`parseInt("1z", 16) = 1`
consumes the leading digit), and `getNearestPantone` returns a value
instead of raising. -/
theorem mixed_hex_parses :
    hexRgb "1z1111" = .ok ⟨some 1, some 17, some 17⟩ ∧
      getNearestPantone [blackEntry] "1z1111" = .ok blackEntry := by
  constructor
  · rfl
  · unfold getNearestPantone
    rw [show hexRgb "1z1111" = .ok ⟨some 1, some 17, some 17⟩ from rfl]
    dsimp only
    unfold nearestLoop
    rw [show hexRgb blackEntry.hex = .ok ⟨some 0, some 0, some 0⟩ from rfl]
    rfl

/-! ## C2: the reference Lab pipeline from the specification text -/

/-- Spec §4.1 step 2: sRGB gamma expansion, as worded in the spec. -/
noncomputable def specGamma (v : ℝ) : ℝ :=
  if v > 0.04045 then ((v + 0.055) / 1.055) ^ (2.4 : ℝ) else v / 12.92

/-- Spec §4.1 step 4 nonlinearity: cube root above 0.008856, else the
linear ramp `(903.3·t + 16) / 116`. -/
noncomputable def specLabNonlin (t : ℝ) : ℝ :=
  if t > 0.008856 then t ^ ((1 : ℝ) / 3) else (903.3 * t + 16) / 116

/-- The four-step reference pipeline exactly as the spec words it:
normalize by 255, gamma-expand, apply the stated sRGB→XYZ D65 matrix scaled
by 100, normalize by the D65 white point and combine through the Lab
nonlinearity. -/
noncomputable def specRgbToLab (r g b : ℤ) : Lab :=
  let rl := specGamma ((r : ℝ) / 255)
  let gl := specGamma ((g : ℝ) / 255)
  let bl := specGamma ((b : ℝ) / 255)
  let X := (0.4124564 * rl + 0.3575761 * gl + 0.1804375 * bl) * 100
  let Y := (0.2126729 * rl + 0.7151522 * gl + 0.0721750 * bl) * 100
  let Z := (0.0193339 * rl + 0.1191920 * gl + 0.9503041 * bl) * 100
  ⟨116 * specLabNonlin (Y / 100.0) - 16,
   500 * (specLabNonlin (X / 95.047) - specLabNonlin (Y / 100.0)),
   200 * (specLabNonlin (Y / 100.0) - specLabNonlin (Z / 108.883))⟩

theorem specGamma_eq : specGamma = gammaCorrect := rfl

theorem specLabNonlin_eq (t : ℝ) : specLabNonlin t = labTransform t := by
  unfold specLabNonlin labTransform
  by_cases h : t > 0.008856
  · rw [if_pos h, if_pos h]
  · rw [if_neg h, if_neg h]
    ring

/-- **C2.**  On any RGB triple with integer channels in [0, 255], the
code's `rgbToLab` computes exactly the spec's four-step reference pipeline
(and, the embedding being over `ℝ`, the result is a genuine finite real
triple). -/
theorem rgbToLab_matches_spec (r g b : ℤ)
    (hr0 : 0 ≤ r) (hr : r ≤ 255) (hg0 : 0 ≤ g) (hg : g ≤ 255)
    (hb0 : 0 ≤ b) (hb : b ≤ 255) :
    rgbToLab ⟨some r, some g, some b⟩ = some (specRgbToLab r g b) := by
  show some (xyzToLab (rgbToXyz (r : ℝ) (g : ℝ) (b : ℝ))) = some (specRgbToLab r g b)
  congr 1
  unfold xyzToLab rgbToXyz specRgbToLab
  dsimp only
  rw [specGamma_eq]
  simp only [specLabNonlin_eq, Lab.mk.injEq]
  refine ⟨?_, ?_, ?_⟩ <;> ring_nf

/-- **C2 witness** at the RGB triple (255, 0, 0). -/
theorem rgbToLab_matches_spec_witness :
    (0 : ℤ) ≤ 255 ∧ (255 : ℤ) ≤ 255 ∧ (0 : ℤ) ≤ 0 ∧ (0 : ℤ) ≤ 255 ∧
      rgbToLab ⟨some 255, some 0, some 0⟩ = some (specRgbToLab 255 0 0) :=
  ⟨by decide, by decide, by decide, by decide,
    rgbToLab_matches_spec 255 0 0 (by decide) (by decide) (by decide) (by decide)
      (by decide) (by decide)⟩

/-! ## Stable-sort lemmas for the similar-colors pipeline -/

theorem orderedInsert_all_le {α : Type} {r : α → α → Prop} [DecidableRel r] {x : α}
    {l : List α} (h : ∀ y ∈ l, r x y) : l.orderedInsert r x = x :: l := by
  cases l with
  | nil => rfl
  | cons y ys => exact List.orderedInsert_of_le r ys (h y (by simp))

theorem filter_orderedInsert {α : Type} {r : α → α → Prop} [DecidableRel r]
    (htrans : ∀ a b c, r a b → r b c → r a c) (p : α → Bool) (x : α) :
    ∀ l : List α, l.Sorted r →
      (l.orderedInsert r x).filter p =
        if p x then (l.filter p).orderedInsert r x else l.filter p := by
  intro l
  induction l with
  | nil =>
    intro _
    cases hp : p x <;> simp [List.orderedInsert, List.filter_cons, hp]
  | cons y ys ih =>
    intro hs
    have hs' : ys.Sorted r := hs.of_cons
    have hy : ∀ z ∈ ys, r y z := List.rel_of_sorted_cons hs
    by_cases hxy : r x y
    · rw [List.orderedInsert_of_le r ys hxy]
      cases hp : p x with
      | true =>
        cases hpy : p y with
        | true =>
          simp only [List.filter_cons, hp, hpy, if_true]
          rw [List.orderedInsert_of_le r _ hxy]
        | false =>
          simp [List.filter_cons, hp, hpy]
          have hall : ∀ z ∈ ys.filter p, r x z := fun z hz =>
            htrans x y z hxy (hy z (List.filter_sublist ys |>.subset hz))
          rw [orderedInsert_all_le hall]
      | false =>
        simp [List.filter_cons, hp]
    · have hoi2 : ∀ l : List α, List.orderedInsert r x (y :: l) =
          y :: List.orderedInsert r x l := by
        intro l
        show (if r x y then _ else _) = _
        rw [if_neg hxy]
      rw [hoi2]
      cases hp : p x with
      | true =>
        cases hpy : p y with
        | true =>
          simp [List.filter_cons, hp, hpy, ih hs', hoi2]
        | false =>
          simp [List.filter_cons, hp, hpy, ih hs']
      | false =>
        cases hpy : p y with
        | true =>
          simp [List.filter_cons, hp, hpy, ih hs']
        | false =>
          simp [List.filter_cons, hp, hpy, ih hs']

theorem filter_insertionSort {α : Type} (r : α → α → Prop) [DecidableRel r]
    (htot : ∀ a b, r a b ∨ r b a) (htrans : ∀ a b c, r a b → r b c → r a c)
    (p : α → Bool) (l : List α) :
    (l.insertionSort r).filter p = (l.filter p).insertionSort r := by
  induction l with
  | nil => rfl
  | cons x xs ih =>
    have hsorted : (xs.insertionSort r).Sorted r := by
      letI : IsTotal α r := ⟨htot⟩
      letI : IsTrans α r := ⟨fun a b c => htrans a b c⟩
      exact List.sorted_insertionSort r xs
    show (List.orderedInsert r x (xs.insertionSort r)).filter p = _
    rw [filter_orderedInsert htrans p x _ hsorted, List.filter_cons]
    cases hp : p x with
    | true =>
      rw [if_pos rfl, if_pos rfl, ih]
      rfl
    | false =>
      rw [if_neg (by simp), if_neg (by simp), ih]

theorem insertionSort_all_ties {α : Type} (r : α → α → Prop) [DecidableRel r] :
    ∀ {l : List α}, (∀ x ∈ l, ∀ y ∈ l, r x y) → l.insertionSort r = l
  | [], _ => rfl
  | x :: xs, h => by
    have hxs : xs.insertionSort r = xs :=
      insertionSort_all_ties r (fun a ha b hb => h a (by simp [ha]) b (by simp [hb]))
    show List.orderedInsert r x (xs.insertionSort r) = x :: xs
    rw [hxs]
    exact orderedInsert_all_le (fun y hy => h x (by simp) y (by simp [hy]))

theorem distanceList_valid {catalog : List PantoneColor} {anchor : PantoneColor}
    {ra ga ba : ℕ}
    (htar : hexRgb anchor.hex = .ok ⟨some (ra : ℤ), some (ga : ℤ), some (ba : ℤ)⟩)
    (hcat : ∀ e ∈ catalog, validHexB e.hex = true) :
    distanceList ⟨some (ra : ℤ), some (ga : ℤ), some (ba : ℤ)⟩ catalog =
      .ok (catalog.map fun c => (c, some (rawDist anchor.hex c.hex))) := by
  induction catalog with
  | nil => rfl
  | cons e rest ih =>
    obtain ⟨r, g, b, hok, -⟩ := validHexB_elim (hcat e (by simp))
    unfold distanceList
    rw [hok]
    dsimp only
    rw [ih (fun x hx => hcat x (by simp [hx]))]
    dsimp only
    have hd : colorDistanceOpt ⟨some (ra : ℤ), some (ga : ℤ), some (ba : ℤ)⟩
        ⟨some (r : ℤ), some (g : ℤ), some (b : ℤ)⟩ = some (rawDist anchor.hex e.hex) := by
      unfold rawDist
      rw [htar, hok]
      rfl
    rw [hd, List.map_cons]

open Classical in
/-- Shared characterization of `getSimilarColors` on valid input over a
valid non-empty catalog with a numeric (non-`NaN`) parsed threshold: the
result is the anchor followed by the catalog entries within the threshold
(excluding the anchor's hex), stable-sorted by raw distance. -/
theorem getSimilarColors_spec (catalog : List PantoneColor) (input : String) (m : JsArg)
    (t : ℤ) (hin : validHexB input = true) (hcat : ∀ e ∈ catalog, validHexB e.hex = true)
    (hne : catalog ≠ []) (ht : jsParseIntArg m = some t) :
    ∃ anchor, getNearestPantone catalog input = .ok anchor ∧ anchor ∈ catalog ∧
      getSimilarColors catalog input m =
        .ok (anchor :: ((catalog.filter fun c =>
            decide (rawDist anchor.hex c.hex ≤ (t : ℝ)) && (c.hex != anchor.hex)).insertionSort
              fun a b => rawDist anchor.hex a.hex ≤ rawDist anchor.hex b.hex)) := by
  obtain ⟨anchor, hok, hmem, -, -⟩ := getNearestPantone_spec catalog input hin hcat hne
  obtain ⟨ra, ga, ba, htar, -⟩ := validHexB_elim (hcat anchor hmem)
  refine ⟨anchor, hok, hmem, ?_⟩
  unfold getSimilarColors
  rw [hok]
  dsimp only
  rw [htar]
  dsimp only
  rw [distanceList_valid htar hcat]
  dsimp only
  rw [ht]
  refine congrArg Except.ok (congrArg (anchor :: ·) ?_)
  rw [List.filter_map]
  have hq : ∀ c ∈ catalog,
      ((fun cd : PantoneColor × Option ℝ =>
          decide (jsLeOpt cd.2 (some t)) && (cd.1.hex != anchor.hex)) ∘
        (fun c => (c, some (rawDist anchor.hex c.hex)))) c =
      (decide (rawDist anchor.hex c.hex ≤ (t : ℝ)) && (c.hex != anchor.hex)) := by
    intro c _
    simp only [Function.comp]
    congr 1
  rw [List.filter_congr hq]
  have hmap : ((catalog.filter fun c =>
        decide (rawDist anchor.hex c.hex ≤ (t : ℝ)) && (c.hex != anchor.hex)).insertionSort
          (fun a b => rawDist anchor.hex a.hex ≤ rawDist anchor.hex b.hex)).map
        (fun c => (c, some (rawDist anchor.hex c.hex))) =
      ((catalog.filter fun c =>
        decide (rawDist anchor.hex c.hex ≤ (t : ℝ)) && (c.hex != anchor.hex)).map
          (fun c => (c, some (rawDist anchor.hex c.hex)))).insertionSort
        (fun a b : PantoneColor × Option ℝ => a.2.getD 0 ≤ b.2.getD 0) :=
    List.map_insertionSort _ _ _ _ (fun a _ b _ => Iff.rfl)
  rw [← hmap]
  rw [List.map_map]
  have : ((fun cd : PantoneColor × Option ℝ => cd.1) ∘
      fun c => (c, some (rawDist anchor.hex c.hex))) = id := rfl
  rw [this, List.map_id]

open Classical in
/-- **C3.**  On valid input over a valid non-empty catalog, with a
threshold whose integer parse is `t`, `getSimilarColors` returns the anchor
(the nearest match) first, followed by exactly the catalog entries whose
raw RGB distance to the anchor is ≤ `t` and whose hex differs from the
anchor's, in ascending raw-distance order with ties in original catalog
order; the returned elements are bare catalog records (name, code, hex —
no distance field), as the result type shows. -/
theorem similar_colors_correct (catalog : List PantoneColor) (input : String) (m : JsArg)
    (t : ℤ) (hin : validHexB input = true) (hcat : ∀ e ∈ catalog, validHexB e.hex = true)
    (hne : catalog ≠ []) (ht : jsParseIntArg m = some t) :
    ∃ anchor rest, getNearestPantone catalog input = .ok anchor ∧
      getSimilarColors catalog input m = .ok (anchor :: rest) ∧
      rest.Perm (catalog.filter fun c =>
        decide (rawDist anchor.hex c.hex ≤ (t : ℝ)) && (c.hex != anchor.hex)) ∧
      rest.Pairwise (fun a b => rawDist anchor.hex a.hex ≤ rawDist anchor.hex b.hex) ∧
      ∀ d : ℝ, rest.filter (fun c => decide (rawDist anchor.hex c.hex = d)) =
        catalog.filter fun c =>
          (decide (rawDist anchor.hex c.hex ≤ (t : ℝ)) && (c.hex != anchor.hex)) &&
            decide (rawDist anchor.hex c.hex = d) := by
  obtain ⟨anchor, hok, hmem, heq⟩ := getSimilarColors_spec catalog input m t hin hcat hne ht
  refine ⟨anchor, _, hok, heq, ?_, ?_, ?_⟩
  · exact List.perm_insertionSort _ _
  · letI : IsTotal PantoneColor
        (fun a b => rawDist anchor.hex a.hex ≤ rawDist anchor.hex b.hex) :=
      ⟨fun a b => le_total _ _⟩
    letI : IsTrans PantoneColor
        (fun a b => rawDist anchor.hex a.hex ≤ rawDist anchor.hex b.hex) :=
      ⟨fun a b c hab hbc => le_trans hab hbc⟩
    exact List.sorted_insertionSort _ _
  · intro d
    rw [filter_insertionSort
      (fun a b : PantoneColor => rawDist anchor.hex a.hex ≤ rawDist anchor.hex b.hex)
      (by intro a b; exact le_total _ _) (by intro a b c hab hbc; exact le_trans hab hbc) _ _]
    rw [insertionSort_all_ties
      (fun a b : PantoneColor => rawDist anchor.hex a.hex ≤ rawDist anchor.hex b.hex) ?_]
    · rw [List.filter_filter]
      apply List.filter_congr
      intro c _
      rw [Bool.and_comm]
    · intro x hx y hy
      have hxd : rawDist anchor.hex x.hex = d :=
        of_decide_eq_true (List.mem_filter.mp hx).2
      have hyd : rawDist anchor.hex y.hex = d :=
        of_decide_eq_true (List.mem_filter.mp hy).2
      rw [hxd, hyd]

/-- **C3 witness** at `"#FF0000"`, threshold 64, over a concrete catalog. -/
theorem similar_colors_correct_witness :
    validHexB "#FF0000" = true ∧
      (∀ e ∈ [blackEntry, whiteEntry], validHexB e.hex = true) ∧
      ([blackEntry, whiteEntry] : List PantoneColor) ≠ [] ∧
      jsParseIntArg (.num 64) = some 64 ∧
      (∃ anchor rest, getNearestPantone [blackEntry, whiteEntry] "#FF0000" = .ok anchor ∧
        getSimilarColors [blackEntry, whiteEntry] "#FF0000" (.num 64) = .ok (anchor :: rest) ∧
        rest.Perm (([blackEntry, whiteEntry] : List PantoneColor).filter fun c =>
          decide (rawDist anchor.hex c.hex ≤ ((64 : ℤ) : ℝ)) && (c.hex != anchor.hex)) ∧
        rest.Pairwise (fun a b => rawDist anchor.hex a.hex ≤ rawDist anchor.hex b.hex) ∧
        ∀ d : ℝ, rest.filter (fun c => decide (rawDist anchor.hex c.hex = d)) =
          ([blackEntry, whiteEntry] : List PantoneColor).filter fun c =>
            (decide (rawDist anchor.hex c.hex ≤ ((64 : ℤ) : ℝ)) && (c.hex != anchor.hex)) &&
              decide (rawDist anchor.hex c.hex = d)) :=
  ⟨by decide, by decide, by decide, by decide,
    similar_colors_correct [blackEntry, whiteEntry] "#FF0000" (.num 64) 64 (by decide)
      (by decide) (by decide) (by decide)⟩

theorem ratTrunc_mono {q1 q2 : ℚ} (h : q1 ≤ q2) : ratTrunc q1 ≤ ratTrunc q2 := by
  unfold ratTrunc
  split_ifs with h1 h2 h2
  · exact Int.floor_le_floor h
  · exact absurd (le_trans h1 h) h2
  · have h1' : (0 : ℚ) ≤ -q1 := by linarith [not_le.mp h1]
    have hf1 : 0 ≤ ⌊-q1⌋ := Int.floor_nonneg.mpr h1'
    have hf2 : 0 ≤ ⌊q2⌋ := Int.floor_nonneg.mpr h2
    omega
  · have hf : ⌊-q2⌋ ≤ ⌊-q1⌋ := Int.floor_le_floor (by linarith)
    omega

open Classical in
/-- **C7.**  For numeric thresholds `q1 ≤ q2`, the entries returned at
threshold `q1` form a subset of those returned at `q2`, and the whole
`q1`-result is a sublist of the `q2`-result (so shared entries appear in
the same relative order — which subsumes "up to reordering among
equal-distance ties"). -/
theorem similar_monotone (catalog : List PantoneColor) (input : String) (q1 q2 : ℚ)
    (hq : q1 ≤ q2) (hin : validHexB input = true)
    (hcat : ∀ e ∈ catalog, validHexB e.hex = true) (hne : catalog ≠ []) :
    ∃ out1 out2, getSimilarColors catalog input (.num q1) = .ok out1 ∧
      getSimilarColors catalog input (.num q2) = .ok out2 ∧
      (∀ c ∈ out1, c ∈ out2) ∧ out1.Sublist out2 := by
  obtain ⟨a1, hok1, -, heq1⟩ :=
    getSimilarColors_spec catalog input (.num q1) (ratTrunc q1) hin hcat hne rfl
  obtain ⟨a2, hok2, -, heq2⟩ :=
    getSimilarColors_spec catalog input (.num q2) (ratTrunc q2) hin hcat hne rfl
  obtain rfl : a1 = a2 := Except.ok.inj (hok1.symm.trans hok2)
  have hfil : (catalog.filter fun c =>
        decide (rawDist a1.hex c.hex ≤ ((ratTrunc q1 : ℤ) : ℝ)) && (c.hex != a1.hex)) =
      List.filter (fun c => decide (rawDist a1.hex c.hex ≤ ((ratTrunc q1 : ℤ) : ℝ)))
        (catalog.filter fun c =>
          decide (rawDist a1.hex c.hex ≤ ((ratTrunc q2 : ℤ) : ℝ)) && (c.hex != a1.hex)) := by
    rw [List.filter_filter]
    apply List.filter_congr
    intro c _
    by_cases h1 : rawDist a1.hex c.hex ≤ ((ratTrunc q1 : ℤ) : ℝ)
    · have h2 : rawDist a1.hex c.hex ≤ ((ratTrunc q2 : ℤ) : ℝ) :=
        le_trans h1 (by exact_mod_cast ratTrunc_mono hq)
      simp [h1, h2]
    · simp [h1]
  have hcomm := filter_insertionSort
    (fun a b : PantoneColor => rawDist a1.hex a.hex ≤ rawDist a1.hex b.hex)
    (by intro a b; exact le_total _ _) (by intro a b c hab hbc; exact le_trans hab hbc)
    (fun c => decide (rawDist a1.hex c.hex ≤ ((ratTrunc q1 : ℤ) : ℝ)))
    (catalog.filter fun c =>
      decide (rawDist a1.hex c.hex ≤ ((ratTrunc q2 : ℤ) : ℝ)) && (c.hex != a1.hex))
  have hsub : ((catalog.filter fun c =>
        decide (rawDist a1.hex c.hex ≤ ((ratTrunc q1 : ℤ) : ℝ)) &&
          (c.hex != a1.hex)).insertionSort
        (fun a b => rawDist a1.hex a.hex ≤ rawDist a1.hex b.hex)).Sublist
      ((catalog.filter fun c =>
        decide (rawDist a1.hex c.hex ≤ ((ratTrunc q2 : ℤ) : ℝ)) &&
          (c.hex != a1.hex)).insertionSort
        (fun a b => rawDist a1.hex a.hex ≤ rawDist a1.hex b.hex)) := by
    rw [hfil, ← hcomm]
    exact List.filter_sublist _
  refine ⟨_, _, heq1, heq2, ?_, ?_⟩
  · intro c hc
    rcases List.mem_cons.mp hc with rfl | hc
    · exact List.mem_cons_self _ _
    · exact List.mem_cons_of_mem _ (hsub.subset hc)
  · exact hsub.cons₂ a1

theorem rawDist_lt_442 {s1 s2 : String} (h1 : validHexB s1 = true)
    (h2 : validHexB s2 = true) : rawDist s1 s2 < 442 := by
  obtain ⟨r1, g1, b1, hok1, hr1, hg1, hb1⟩ := validHexB_elim h1
  obtain ⟨r2, g2, b2, hok2, hr2, hg2, hb2⟩ := validHexB_elim h2
  unfold rawDist
  rw [hok1, hok2]
  show (colorDistanceOpt ⟨some (r1 : ℤ), some (g1 : ℤ), some (b1 : ℤ)⟩
    ⟨some (r2 : ℤ), some (g2 : ℤ), some (b2 : ℤ)⟩).getD 0 < 442
  unfold colorDistanceOpt colorDistance
  dsimp only [Option.getD]
  rw [Real.sqrt_lt' (by norm_num : (0 : ℝ) < 442)]
  have hsq : ∀ x y : ℝ, 0 ≤ x → x ≤ 255 → 0 ≤ y → y ≤ 255 →
      (x - y) * (x - y) ≤ 65025 := by
    intro x y hx0 hx hy0 hy
    nlinarith
  have c10 : (0 : ℝ) ≤ ((r1 : ℤ) : ℝ) := by positivity
  have c11 : ((r1 : ℤ) : ℝ) ≤ 255 := by exact_mod_cast hr1
  have c20 : (0 : ℝ) ≤ ((g1 : ℤ) : ℝ) := by positivity
  have c21 : ((g1 : ℤ) : ℝ) ≤ 255 := by exact_mod_cast hg1
  have c30 : (0 : ℝ) ≤ ((b1 : ℤ) : ℝ) := by positivity
  have c31 : ((b1 : ℤ) : ℝ) ≤ 255 := by exact_mod_cast hb1
  have c40 : (0 : ℝ) ≤ ((r2 : ℤ) : ℝ) := by positivity
  have c41 : ((r2 : ℤ) : ℝ) ≤ 255 := by exact_mod_cast hr2
  have c50 : (0 : ℝ) ≤ ((g2 : ℤ) : ℝ) := by positivity
  have c51 : ((g2 : ℤ) : ℝ) ≤ 255 := by exact_mod_cast hg2
  have c60 : (0 : ℝ) ≤ ((b2 : ℤ) : ℝ) := by positivity
  have c61 : ((b2 : ℤ) : ℝ) ≤ 255 := by exact_mod_cast hb2
  have e1 := hsq _ _ c10 c11 c40 c41
  have e2 := hsq _ _ c20 c21 c50 c51
  have e3 := hsq _ _ c30 c31 c60 c61
  norm_num
  push_cast at e1 e2 e3
  linarith [e1, e2, e3]

open Classical in
/-- **C9** (amended).  For an integer-parsed threshold of at least 442
(the largest raw distance is √195075 ≈ 441.67, but `parseInt` truncates,
so 441.67 itself yields 441 and can miss entries), `getSimilarColors`
returns the anchor followed, in raw-distance order, by every other entry
whose hex differs from the anchor's — which is a permutation of the whole
catalog whenever the anchor's hex occurs exactly once. -/
theorem similar_full_catalog (catalog : List PantoneColor) (input : String) (m : JsArg)
    (t : ℤ) (hin : validHexB input = true) (hcat : ∀ e ∈ catalog, validHexB e.hex = true)
    (hne : catalog ≠ []) (ht : jsParseIntArg m = some t) (h442 : 442 ≤ t) :
    ∃ anchor rest, getNearestPantone catalog input = .ok anchor ∧
      getSimilarColors catalog input m = .ok (anchor :: rest) ∧
      rest.Perm (catalog.filter fun c => c.hex != anchor.hex) ∧
      (catalog.filter (fun c => c.hex == anchor.hex) = [anchor] →
        (anchor :: rest).Perm catalog) := by
  obtain ⟨anchor, hok, hmem, heq⟩ := getSimilarColors_spec catalog input m t hin hcat hne ht
  have hpred : ∀ c ∈ catalog,
      (decide (rawDist anchor.hex c.hex ≤ (t : ℝ)) && (c.hex != anchor.hex)) =
        (c.hex != anchor.hex) := by
    intro c hc
    have hlt : rawDist anchor.hex c.hex < 442 :=
      rawDist_lt_442 (hcat anchor hmem) (hcat c hc)
    have hle : rawDist anchor.hex c.hex ≤ (t : ℝ) := by
      have h442' : (442 : ℝ) ≤ (t : ℝ) := by exact_mod_cast h442
      linarith
    simp [hle]
  rw [List.filter_congr hpred] at heq
  refine ⟨anchor, _, hok, heq, List.perm_insertionSort _ _, ?_⟩
  intro huniq
  have hperm := List.filter_append_perm (fun c => c.hex == anchor.hex) catalog
  rw [huniq] at hperm
  refine List.Perm.trans ?_ hperm
  refine List.Perm.cons anchor ?_
  exact List.perm_insertionSort _ _

/-- **C9 witness** at threshold 442 over a concrete catalog. -/
theorem similar_full_catalog_witness :
    validHexB "#000000" = true ∧
      (∀ e ∈ [blackEntry, whiteEntry], validHexB e.hex = true) ∧
      ([blackEntry, whiteEntry] : List PantoneColor) ≠ [] ∧
      jsParseIntArg (.num 442) = some 442 ∧ (442 : ℤ) ≤ 442 ∧
      (∃ anchor rest, getNearestPantone [blackEntry, whiteEntry] "#000000" = .ok anchor ∧
        getSimilarColors [blackEntry, whiteEntry] "#000000" (.num 442) = .ok (anchor :: rest) ∧
        rest.Perm (([blackEntry, whiteEntry] : List PantoneColor).filter fun c =>
          c.hex != anchor.hex) ∧
        (([blackEntry, whiteEntry] : List PantoneColor).filter
            (fun c => c.hex == anchor.hex) = [anchor] →
          (anchor :: rest).Perm [blackEntry, whiteEntry])) :=
  ⟨by decide, by decide, by decide, by decide, by decide,
    similar_full_catalog [blackEntry, whiteEntry] "#000000" (.num 442) 442 (by decide)
      (by decide) (by decide) (by decide) (by decide)⟩

open Classical in
/-- **C9 counterexample.**  The threshold 441.67 satisfies the claim's
"≥ 441.67" bound, but `parseInt` truncates it to 441, and the white entry
at raw distance √195075 ≈ 441.673 > 441 from the black anchor is dropped:
the entire catalog is *not* returned. -/
theorem similar_threshold_44167_misses_entries :
    getSimilarColors [blackEntry, whiteEntry] "#000000" (.num (44167 / 100)) =
        .ok [blackEntry] ∧
      whiteEntry ∈ [blackEntry, whiteEntry] ∧ whiteEntry ∉ [blackEntry] := by
  refine ⟨?_, by decide, by decide⟩
  have hparse : jsParseIntArg (.num (44167 / 100)) = some 441 := by
    show some (ratTrunc (44167 / 100)) = some 441
    unfold ratTrunc
    rw [if_pos (by norm_num : (0 : ℚ) ≤ 44167 / 100)]
    norm_num [Int.floor_eq_iff]
  obtain ⟨anchor, hok, hmem, heq⟩ :=
    getSimilarColors_spec [blackEntry, whiteEntry] "#000000" (.num (44167 / 100)) 441
      (by decide) (by decide) (by decide) hparse
  obtain ⟨c2, hok2, -, -, i, hi, hget, hearlier⟩ :=
    getNearestPantone_spec [blackEntry, whiteEntry] "#000000" (by decide) (by decide)
      (by decide)
  obtain rfl : anchor = c2 := Except.ok.inj (hok.symm.trans hok2)
  have hself : dE "#000000" blackEntry = 0 := by
    have hokb : hexRgb "#000000" = .ok ⟨some (0 : ℤ), some 0, some 0⟩ := rfl
    unfold dE
    rw [show blackEntry.hex = "#000000" from rfl, labOfHex_eq hokb]
    exact deltaE_self _
  have hanchor : anchor = blackEntry := by
    cases i with
    | zero =>
      rw [← hget]
      rfl
    | succ k =>
      cases k with
      | zero =>
        exfalso
        have hlt := hearlier 0 (by norm_num) (by norm_num)
        have hge := dE_nonneg "#000000" anchor
        rw [show ([blackEntry, whiteEntry] : List PantoneColor).get
            ⟨0, by norm_num⟩ = blackEntry from rfl, hself] at hlt
        linarith
      | succ k2 =>
        exfalso
        simp at hi
        omega
  rw [hanchor] at heq
  have hraw : rawDist blackEntry.hex whiteEntry.hex = Real.sqrt 195075 := by
    unfold rawDist
    rw [show hexRgb blackEntry.hex = .ok ⟨some (0 : ℤ), some 0, some 0⟩ from rfl,
      show hexRgb whiteEntry.hex = .ok ⟨some (255 : ℤ), some 255, some 255⟩ from rfl]
    show (colorDistanceOpt ⟨some (0 : ℤ), some 0, some 0⟩
      ⟨some (255 : ℤ), some 255, some 255⟩).getD 0 = _
    unfold colorDistanceOpt colorDistance
    dsimp only [Option.getD]
    congr 1
    norm_num
  have hfilter : ([blackEntry, whiteEntry] : List PantoneColor).filter
      (fun c => decide (rawDist blackEntry.hex c.hex ≤ ((441 : ℤ) : ℝ)) &&
        (c.hex != blackEntry.hex)) = [] := by
    rw [List.filter_cons, List.filter_cons, List.filter_nil]
    have h1 : (blackEntry.hex != blackEntry.hex) = false := by decide
    have h2 : decide (rawDist blackEntry.hex whiteEntry.hex ≤ ((441 : ℤ) : ℝ)) = false := by
      apply decide_eq_false
      rw [hraw, not_le]
      have : ((441 : ℤ) : ℝ) = 441 := by norm_num
      rw [this, Real.lt_sqrt (by norm_num)]
      norm_num
    rw [h1, Bool.and_false, h2, Bool.false_and]
    rfl
  rw [hfilter] at heq
  exact heq

/-- **C7 witness** at thresholds 0 ≤ 64 over a concrete catalog. -/
theorem similar_monotone_witness :
    (0 : ℚ) ≤ 64 ∧ validHexB "#FF0000" = true ∧
      (∀ e ∈ [blackEntry, whiteEntry], validHexB e.hex = true) ∧
      ([blackEntry, whiteEntry] : List PantoneColor) ≠ [] ∧
      (∃ out1 out2,
        getSimilarColors [blackEntry, whiteEntry] "#FF0000" (.num 0) = .ok out1 ∧
        getSimilarColors [blackEntry, whiteEntry] "#FF0000" (.num 64) = .ok out2 ∧
        (∀ c ∈ out1, c ∈ out2) ∧ out1.Sublist out2) :=
  ⟨by decide, by decide, by decide, by decide,
    similar_monotone [blackEntry, whiteEntry] "#FF0000" 0 64 (by decide) (by decide)
      (by decide) (by decide)⟩

/-- **C4 witness**: the amended characterization applied at `"#12"`. -/
theorem hexRgb_malformed_iff_witness :
    (hexRgb "#12" = .error .invalidHex ↔
      (stripHash "#12".toList).length ≠ 3 ∧ (stripHash "#12".toList).length ≠ 6) ∧
    (hexRgb "#12" = .error .invalidHex →
      getNearestPantone [blackEntry] "#12" = .error .invalidHex) :=
  hexRgb_malformed_iff "#12" [blackEntry]
